import Mathlib

/-!
Shallow embedding, in Lean 4, of the license-plate error-detection engine of
`src/main.py`:

* the similarity scorer `SequenceMatcher(None, a, b).ratio() * 100` (difflib's
  recursive longest-matching-block ratio, junk-free case, which is the case the
  program exercises: plates are far shorter than the 200-character autojunk
  threshold);
* the window matcher `find_license_plate_errors` (records already ordered by
  time; for each record compare with the next 4 records, breaking out of the
  inner loop once the time window is exceeded, skipping identical plates,
  and recording a match when the similarity reaches the threshold);
* the correction resolver and sink `update_license_plates_with_scores`
  (length-based classification, longer-plate selection, `int()`-truncated
  confidence, delete-then-insert persistence).

Timestamps are modelled as integers (seconds); `datetime` subtraction becomes
integer subtraction and the five-minute window becomes a duration in seconds.
Python floats are modelled as rationals.
-/

namespace CarPlates

/-- A plate string, modelled as its list of characters. -/
abbrev Plate := List Char

/-- A row of the `license_plates` table: `(id, DateTime, LicensePlate)`,
with the timestamp modelled as an integer number of seconds. -/
structure Detection where
  id : Nat
  time : Int
  plate : Plate
deriving DecidableEq

/-- One entry of the `errors` list built by `find_license_plate_errors`
(the dict with keys `id1, id2, time1, time2, plate1, plate2, similarity`). -/
structure Match where
  id1 : Nat
  id2 : Nat
  time1 : Int
  time2 : Int
  plate1 : Plate
  plate2 : Plate
  similarity : ℚ
deriving DecidableEq

/-- A row of the `corrected_plates` table (minus the autoincrement key). -/
structure Correction where
  original_id : Nat
  timestamp : Int
  original_plate : Plate
  corrected_plate : Plate
  confidence_score : Int
  correction_type : String
deriving DecidableEq

/-! ### Similarity scorer: difflib's `SequenceMatcher.ratio`

`find_longest_match` (no junk) runs a dynamic program `j2len` where the value
at `(i, j)` is the length of the longest common suffix of `a[alo..i]` and
`b[blo..j]` ending exactly at positions `i` and `j`.  `kmatch` is that value. -/

/-- Length of the longest common suffix of `a` ending at index `i` and `b`
ending at index `j`, constrained to start at or after `alo` in `a` and `blo`
in `b` — the `j2len` dynamic program inside difflib's `find_longest_match`. -/
def kmatch (a b : Plate) (alo blo : Nat) : Nat → Nat → Nat
  | 0, j =>
      if alo ≤ 0 ∧ blo ≤ j ∧ (a.get? 0).isSome ∧ a.get? 0 = b.get? j then 1 else 0
  | i + 1, 0 =>
      if alo ≤ i + 1 ∧ blo ≤ 0 ∧ (a.get? (i + 1)).isSome ∧ a.get? (i + 1) = b.get? 0 then 1
      else 0
  | i + 1, j + 1 =>
      if alo ≤ i + 1 ∧ blo ≤ j + 1 ∧ (a.get? (i + 1)).isSome ∧ a.get? (i + 1) = b.get? (j + 1)
      then kmatch a b alo blo i j + 1
      else 0

/-- All end-position pairs `(i, j)` scanned by `find_longest_match` over the
ranges `[alo, ahi) × [blo, bhi)`, in the loop order of the Python code
(`i` ascending, then `j` ascending). -/
def candidatePairs (alo ahi blo bhi : Nat) : List (Nat × Nat) :=
  (List.range' alo (ahi - alo)).flatMap fun i =>
    (List.range' blo (bhi - blo)).map fun j => (i, j)

/-- One step of `find_longest_match`'s running best `(besti, bestj, bestsize)`:
a candidate end position replaces the best exactly when its suffix length
strictly exceeds the current best size (`if k > bestsize` in difflib). -/
def stepBest (a b : Plate) (alo blo : Nat) (best : Nat × Nat × Nat) (p : Nat × Nat) :
    Nat × Nat × Nat :=
  let k := kmatch a b alo blo p.1 p.2
  if best.2.2 < k then (p.1 + 1 - k, p.2 + 1 - k, k) else best

/-- difflib's `find_longest_match(alo, ahi, blo, bhi)` in the junk-free case:
the longest matching block `(besti, bestj, bestsize)` of `a[alo:ahi]` and
`b[blo:bhi]`, starting from `(alo, blo, 0)`. -/
def findLongestMatch (a b : Plate) (alo ahi blo bhi : Nat) : Nat × Nat × Nat :=
  (candidatePairs alo ahi blo bhi).foldl (stepBest a b alo blo) (alo, blo, 0)

/-- Total size of the matching blocks of `a[alo:ahi]` vs `b[blo:bhi]`: the
recursion of `get_matching_blocks` (find the longest block, recurse on the
regions to its left and to its right, sum the block sizes).  The `fuel`
argument is a structural bound on the recursion depth; each recursive call
strictly shrinks `(ahi - alo) + (bhi - blo)`, so any fuel above that sum
computes the true value. -/
def matchSum (a b : Plate) : Nat → Nat → Nat → Nat → Nat → Nat
  | 0, _, _, _, _ => 0
  | fuel + 1, alo, ahi, blo, bhi =>
    let r := findLongestMatch a b alo ahi blo bhi
    if r.2.2 = 0 then 0
    else
      matchSum a b fuel alo r.1 blo r.2.1 + r.2.2 +
        matchSum a b fuel (r.1 + r.2.2) ahi (r.2.1 + r.2.2) bhi

/-- `sum(triple.size for triple in get_matching_blocks())` over the full
strings. -/
def totalMatched (a b : Plate) : Nat :=
  matchSum a b (a.length + b.length + 1) 0 a.length 0 b.length

/-- difflib's `_calculate_ratio(matches, length)`:
`2.0 * matches / length` when `length` is nonzero, else `1.0`. -/
def calcRatioQ (m length : Nat) : ℚ :=
  if length ≠ 0 then 2 * (m : ℚ) / (length : ℚ) else 1

/-- `SequenceMatcher(None, a, b).ratio() * 100`, the similarity percentage the
program computes for a pair of plates. -/
def score (a b : Plate) : ℚ :=
  calcRatioQ (totalMatched a b) (a.length + b.length) * 100

/-! ### Window matcher: `find_license_plate_errors` -/

/-- The match record appended to `errors` for the pair `(r1, r2)`. -/
def mkMatch (r1 r2 : Detection) : Match :=
  { id1 := r1.id, id2 := r2.id, time1 := r1.time, time2 := r2.time,
    plate1 := r1.plate, plate2 := r2.plate, similarity := score r1.plate r2.plate }

/-- The inner loop `for record2 in records[i+1:i+5]`: break out as soon as
`time2 - time1 > time_window`; skip identical plates; append a match when
`similarity >= similarity_threshold`. -/
def scanCandidates (r1 : Detection) (window : Int) (threshold : ℚ) :
    List Detection → List Match
  | [] => []
  | r2 :: rest =>
    if window < r2.time - r1.time then []
    else if r1.plate ≠ r2.plate then
      (if threshold ≤ score r1.plate r2.plate then [mkMatch r1 r2] else []) ++
        scanCandidates r1 window threshold rest
    else scanCandidates r1 window threshold rest

/-- `find_license_plate_errors` on an in-memory record list (the records as
fetched, ordered by time): for each record in order, scan the next 4 records,
collecting the matches in discovery order.  `window` is the time window in
seconds (`time_window_minutes * 60`). -/
def find_license_plate_errors (window : Int) (threshold : ℚ) :
    List Detection → List Match
  | [] => []
  | r1 :: rest =>
    scanCandidates r1 window threshold (rest.take 4) ++
      find_license_plate_errors window threshold rest

/-! ### Correction resolver and sink: `update_license_plates_with_scores` -/

/-- Python's `int()` applied to a rational: truncation toward zero. -/
def pyInt (q : ℚ) : ℤ :=
  if 0 ≤ q then ⌊q⌋ else ⌈q⌉

/-- The per-error body of `update_license_plates_with_scores`: classify by
length comparison, pick the plate that is not shorter, truncate the
similarity into a confidence score. -/
def resolveCorrection (e : Match) : Correction :=
  let original := e.plate1
  let candidate := e.plate2
  let correction_type :=
    if original.length > candidate.length then "missing_chars"
    else if original.length < candidate.length then "added_chars"
    else "char_swap"
  let corrected := if original.length ≥ candidate.length then original else candidate
  { original_id := e.id1, timestamp := e.time1, original_plate := original,
    corrected_plate := corrected, confidence_score := pyInt e.similarity,
    correction_type := correction_type }

/-- `update_license_plates_with_scores`: the `corrected_plates` store is first
cleared (`DELETE FROM corrected_plates`), then one correction per error is
inserted, in order.  The result is the new observable store contents. -/
def update_license_plates_with_scores (errors : List Match) (_store : List Correction) :
    List Correction :=
  let cleared : List Correction := []
  cleared ++ errors.map resolveCorrection

/-- The tail of the `__main__` block: find the errors, and update the
corrections store only when the error list is nonempty (`if errors:`). -/
def mainPipeline (records : List Detection) (window : Int) (threshold : ℚ)
    (store : List Correction) : List Correction :=
  let errors := find_license_plate_errors window threshold records
  if errors.isEmpty then store else update_license_plates_with_scores errors store

/-! ### Properties of the scorer -/

/-- A positive `kmatch` value fits inside the scanned prefixes: the matched
suffix of length `k` ending at `(i, j)` starts at `i + 1 - k ≥ alo` in `a`
and at `j + 1 - k ≥ blo` in `b`. -/
lemma kmatch_le (a b : Plate) (alo blo : Nat) :
    ∀ i j, 0 < kmatch a b alo blo i j →
      alo + kmatch a b alo blo i j ≤ i + 1 ∧ blo + kmatch a b alo blo i j ≤ j + 1
  | 0, j => by
    rw [kmatch]
    split
    · rename_i hcond
      intro _
      omega
    · intro h
      exact absurd h (by omega)
  | i + 1, 0 => by
    rw [kmatch]
    split
    · rename_i hcond
      intro _
      omega
    · intro h
      exact absurd h (by omega)
  | i + 1, j + 1 => by
    rw [kmatch]
    split
    · rename_i hcond
      intro _
      rcases Nat.eq_zero_or_pos (kmatch a b alo blo i j) with h0 | hpos
      · rw [h0]
        omega
      · have ih := kmatch_le a b alo blo i j hpos
        omega
    · intro h
      exact absurd h (by omega)

/-- On a string compared against itself, the diagonal suffix ending at `(i, i)`
has length `i + 1` (the whole prefix matches). -/
lemma kmatch_self (a : Plate) : ∀ i, i < a.length → kmatch a a 0 0 i i = i + 1
  | 0, h => by
    rw [kmatch, if_pos]
    refine ⟨Nat.le_refl 0, Nat.le_refl 0, ?_, rfl⟩
    rw [List.get?_eq_get h]
    rfl
  | i + 1, h => by
    rw [kmatch, if_pos, kmatch_self a i (Nat.lt_of_succ_lt h)]
    refine ⟨by omega, by omega, ?_, rfl⟩
    rw [List.get?_eq_get h]
    rfl

/-- The running best size of `find_longest_match` never decreases. -/
lemma foldl_stepBest_mono (a b : Plate) (alo blo : Nat) :
    ∀ (l : List (Nat × Nat)) (init : Nat × Nat × Nat),
      init.2.2 ≤ (l.foldl (stepBest a b alo blo) init).2.2
  | [], _ => Nat.le_refl _
  | p :: rest, init => by
    have h1 : init.2.2 ≤ (stepBest a b alo blo init p).2.2 := by
      rw [stepBest]
      split
      · dsimp only
        omega
      · exact Nat.le_refl _
    exact Nat.le_trans h1 (foldl_stepBest_mono a b alo blo rest _)

/-- The final best size of `find_longest_match` dominates the suffix length of
every scanned end position. -/
lemma foldl_stepBest_ge (a b : Plate) (alo blo : Nat) :
    ∀ (l : List (Nat × Nat)) (init : Nat × Nat × Nat) (p : Nat × Nat), p ∈ l →
      kmatch a b alo blo p.1 p.2 ≤ (l.foldl (stepBest a b alo blo) init).2.2
  | p0 :: rest, init, p, hp => by
    rcases List.mem_cons.mp hp with rfl | hmem
    · have h1 : kmatch a b alo blo p.1 p.2 ≤ (stepBest a b alo blo init p).2.2 := by
        rw [stepBest]
        split
        · exact Nat.le_refl _
        · omega
      exact Nat.le_trans h1 (foldl_stepBest_mono a b alo blo rest _)
    · exact foldl_stepBest_ge a b alo blo rest _ p hmem

/-- The result of `find_longest_match`'s fold is either its starting value or a
block derived from one of the scanned end positions. -/
lemma foldl_stepBest_shape (a b : Plate) (alo blo : Nat) :
    ∀ (l : List (Nat × Nat)) (init : Nat × Nat × Nat),
      l.foldl (stepBest a b alo blo) init = init ∨
      ∃ p ∈ l, 0 < kmatch a b alo blo p.1 p.2 ∧
        l.foldl (stepBest a b alo blo) init =
          (p.1 + 1 - kmatch a b alo blo p.1 p.2, p.2 + 1 - kmatch a b alo blo p.1 p.2,
            kmatch a b alo blo p.1 p.2)
  | [], _ => Or.inl rfl
  | p0 :: rest, init => by
    rcases foldl_stepBest_shape a b alo blo rest (stepBest a b alo blo init p0) with
      h | ⟨p, hp, hpos, h⟩
    · rw [List.foldl_cons, h, stepBest]
      split
      · rename_i hlt
        exact Or.inr ⟨p0, List.mem_cons_self p0 rest, by omega, rfl⟩
      · exact Or.inl rfl
    · exact Or.inr ⟨p, List.mem_cons_of_mem p0 hp, hpos, by rw [List.foldl_cons]; exact h⟩

/-- Membership in the scanned end-position grid. -/
lemma mem_candidatePairs {alo ahi blo bhi : Nat} {p : Nat × Nat} :
    p ∈ candidatePairs alo ahi blo bhi ↔ alo ≤ p.1 ∧ p.1 < ahi ∧ blo ≤ p.2 ∧ p.2 < bhi := by
  obtain ⟨x, y⟩ := p
  simp only [candidatePairs, List.mem_flatMap, List.mem_map, List.mem_range'_1,
    Prod.mk.injEq]
  constructor
  · rintro ⟨i, ⟨hi1, hi2⟩, j, ⟨hj1, hj2⟩, rfl, rfl⟩
    exact ⟨hi1, by omega, hj1, by omega⟩
  · rintro ⟨h1, h2, h3, h4⟩
    exact ⟨x, ⟨h1, by omega⟩, y, ⟨h3, by omega⟩, rfl, rfl⟩

/-- A nontrivial longest matching block lies inside the requested ranges. -/
lemma findLongestMatch_bounds {a b : Plate} {alo ahi blo bhi bi bj bk : Nat}
    (h : findLongestMatch a b alo ahi blo bhi = (bi, bj, bk)) (hk : 0 < bk) :
    alo ≤ bi ∧ bi + bk ≤ ahi ∧ blo ≤ bj ∧ bj + bk ≤ bhi := by
  rcases foldl_stepBest_shape a b alo blo (candidatePairs alo ahi blo bhi) (alo, blo, 0) with
    hsh | ⟨p, hp, hpos, hsh⟩
  · rw [findLongestMatch] at h
    rw [hsh] at h
    obtain ⟨rfl, rfl, rfl⟩ : alo = bi ∧ blo = bj ∧ 0 = bk := by
      exact ⟨congrArg Prod.fst h, congrArg (Prod.fst ∘ Prod.snd) h,
        congrArg (Prod.snd ∘ Prod.snd) h⟩
    exact absurd hk (by omega)
  · rw [findLongestMatch] at h
    rw [hsh] at h
    obtain ⟨hb1, hb2, hb3⟩ : p.1 + 1 - kmatch a b alo blo p.1 p.2 = bi ∧
        p.2 + 1 - kmatch a b alo blo p.1 p.2 = bj ∧ kmatch a b alo blo p.1 p.2 = bk :=
      ⟨congrArg Prod.fst h, congrArg (Prod.fst ∘ Prod.snd) h,
        congrArg (Prod.snd ∘ Prod.snd) h⟩
    have hrange := mem_candidatePairs.mp hp
    have hkle := kmatch_le a b alo blo p.1 p.2 hpos
    omega

/-- For every fuel value, the summed block sizes are at most the width of each
of the two scanned ranges. -/
lemma matchSum_le (a b : Plate) :
    ∀ fuel alo ahi blo bhi, matchSum a b fuel alo ahi blo bhi ≤ ahi - alo ∧
      matchSum a b fuel alo ahi blo bhi ≤ bhi - blo
  | 0, alo, ahi, blo, bhi => by
    rw [matchSum]
    omega
  | fuel + 1, alo, ahi, blo, bhi => by
    rcases hflm : findLongestMatch a b alo ahi blo bhi with ⟨bi, bj, bk⟩
    rw [matchSum]
    rw [hflm]
    dsimp only
    by_cases h0 : bk = 0
    · rw [if_pos h0]
      omega
    · rw [if_neg h0]
      have hb := findLongestMatch_bounds hflm (Nat.pos_of_ne_zero h0)
      have ihl := matchSum_le a b fuel alo bi blo bj
      have ihr := matchSum_le a b fuel (bi + bk) ahi (bj + bk) bhi
      omega

/-- `sum(block sizes)` is at most the length of either string. -/
lemma totalMatched_le (a b : Plate) :
    totalMatched a b ≤ a.length ∧ totalMatched a b ≤ b.length := by
  have h := matchSum_le a b (a.length + b.length + 1) 0 a.length 0 b.length
  rw [totalMatched]
  omega

/-- The ratio is never negative. -/
lemma calcRatioQ_nonneg (m L : Nat) : 0 ≤ calcRatioQ m L := by
  rw [calcRatioQ]
  split
  · positivity
  · norm_num

/-- The ratio is at most 1 as soon as twice the match total is bounded by the
combined length. -/
lemma calcRatioQ_le_one {m L : Nat} (h : 2 * m ≤ L) : calcRatioQ m L ≤ 1 := by
  rw [calcRatioQ]
  split
  · rename_i hL
    rw [div_le_one (by exact_mod_cast Nat.pos_of_ne_zero hL)]
    exact_mod_cast h
  · exact le_refl 1

/-- Lower similarity bound: `0 <= score(a, b)`. -/
lemma score_nonneg (a b : Plate) : 0 ≤ score a b := by
  rw [score]
  exact mul_nonneg (calcRatioQ_nonneg _ _) (by norm_num)

/-- Upper similarity bound: `score(a, b) <= 100`. -/
lemma score_le_hundred (a b : Plate) : score a b ≤ 100 := by
  rw [score]
  have h1 : calcRatioQ (totalMatched a b) (a.length + b.length) ≤ 1 := by
    refine calcRatioQ_le_one ?_
    have h := totalMatched_le a b
    omega
  calc calcRatioQ (totalMatched a b) (a.length + b.length) * 100 ≤ 1 * 100 :=
        mul_le_mul_of_nonneg_right h1 (by norm_num)
    _ = 100 := by norm_num

/-- An empty `a`-range yields the trivial block `(alo, blo, 0)`. -/
lemma findLongestMatch_left_empty (a b : Plate) (alo blo bhi : Nat) :
    findLongestMatch a b alo alo blo bhi = (alo, blo, 0) := by
  have hc : candidatePairs alo alo blo bhi = [] := by
    unfold candidatePairs
    rw [Nat.sub_self]
    rfl
  rw [findLongestMatch, hc]
  rfl

/-- With an empty `a`-range, one step of the block recursion contributes
nothing. -/
lemma matchSum_empty_left (a b : Plate) (fuel alo blo bhi : Nat) :
    matchSum a b (fuel + 1) alo alo blo bhi = 0 := by
  rw [matchSum, findLongestMatch_left_empty]
  dsimp only
  rw [if_pos rfl]

/-- On a nonempty string against itself the block recursion matches every
character: the summed block sizes equal the length. -/
lemma totalMatched_self {a : Plate} (ha : a ≠ []) : totalMatched a a = a.length := by
  have hl : 0 < a.length := List.length_pos.mpr ha
  rcases hflm : findLongestMatch a a 0 a.length 0 a.length with ⟨bi, bj, bk⟩
  have hmem : ((a.length - 1, a.length - 1) : Nat × Nat) ∈
      candidatePairs 0 a.length 0 a.length :=
    mem_candidatePairs.mpr ⟨by omega, by omega, by omega, by omega⟩
  have hge : a.length ≤ bk := by
    have h2 := foldl_stepBest_ge a a 0 0 (candidatePairs 0 a.length 0 a.length)
      (0, 0, 0) (a.length - 1, a.length - 1) hmem
    rw [show ((a.length - 1, a.length - 1) : Nat × Nat).1 = a.length - 1 from rfl,
      show ((a.length - 1, a.length - 1) : Nat × Nat).2 = a.length - 1 from rfl,
      kmatch_self a (a.length - 1) (by omega)] at h2
    have heq : (candidatePairs 0 a.length 0 a.length).foldl (stepBest a a 0 0) (0, 0, 0) =
        (bi, bj, bk) := hflm
    rw [heq] at h2
    dsimp only at h2
    omega
  have hb := findLongestMatch_bounds hflm (by omega)
  have hbk : bk = a.length := by omega
  have hbi : bi = 0 := by omega
  have hbj : bj = 0 := by omega
  subst hbk hbi hbj
  rw [totalMatched, matchSum, hflm]
  dsimp only
  rw [if_neg (by omega : ¬ a.length = 0)]
  obtain ⟨f, hf⟩ : ∃ f, a.length + a.length = f + 1 := ⟨a.length + a.length - 1, by omega⟩
  rw [hf]
  simp only [Nat.zero_add]
  rw [matchSum_empty_left, matchSum_empty_left]
  omega

/-- `score(a, a) = 100` for nonempty `a`. -/
lemma score_self {a : Plate} (ha : a ≠ []) : score a a = 100 := by
  have hl : 0 < a.length := List.length_pos.mpr ha
  have hc : (a.length : ℚ) + (a.length : ℚ) ≠ 0 := by
    have : (0 : ℚ) < (a.length : ℚ) := by exact_mod_cast hl
    linarith
  rw [score, totalMatched_self ha, calcRatioQ, if_pos (by omega : ¬ a.length + a.length = 0)]
  push_cast
  field_simp
  ring

/-! ### Properties of the window matcher -/

/-- Indexing into a `take`: the element exists iff the index is below the
bound and the underlying list has it there. -/
lemma get?_take_eq {α : Type} (l : List α) (n j : Nat) (x : α) :
    (l.take n).get? j = some x ↔ j < n ∧ l.get? j = some x := by
  constructor
  · intro h
    have hj : j < n := by
      by_contra hj
      have hlen : (l.take n).length ≤ j := by
        rw [List.length_take]
        omega
      rw [List.get?_eq_none.mpr hlen] at h
      exact Option.noConfusion h
    refine ⟨hj, ?_⟩
    rw [← List.get?_take hj]
    exact h
  · rintro ⟨hj, h⟩
    rw [List.get?_take hj]
    exact h

/-- In a list sorted by time, an earlier position has an earlier (or equal)
timestamp. -/
lemma sorted_get?_le {records : List Detection}
    (hs : records.Pairwise (fun x y => x.time ≤ y.time)) {i j : Nat} {x y : Detection}
    (hx : records.get? i = some x) (hy : records.get? j = some y) (hij : i < j) :
    x.time ≤ y.time := by
  rw [List.get?_eq_some] at hx hy
  obtain ⟨hi, rfl⟩ := hx
  obtain ⟨hj, rfl⟩ := hy
  exact List.pairwise_iff_get.mp hs ⟨i, hi⟩ ⟨j, hj⟩ hij

/-- Membership characterization of the inner loop over a time-sorted
candidate block: a match is emitted exactly for the candidates inside the
window whose plate differs and whose similarity reaches the threshold.  The
early `break` loses nothing because the candidates are time-ordered. -/
lemma scanCandidates_mem_iff (r1 : Detection) (w : Int) (t : ℚ) :
    ∀ (cs : List Detection), cs.Pairwise (fun x y => x.time ≤ y.time) →
      ∀ m : Match,
        (m ∈ scanCandidates r1 w t cs ↔
          ∃ j r2, cs.get? j = some r2 ∧ r2.time - r1.time ≤ w ∧
            r1.plate ≠ r2.plate ∧ t ≤ score r1.plate r2.plate ∧ m = mkMatch r1 r2)
  | [], _, m => by
    simp [scanCandidates]
  | r2 :: rest, hp, m => by
    rw [List.pairwise_cons] at hp
    have ih := scanCandidates_mem_iff r1 w t rest hp.2
    by_cases hbreak : w < r2.time - r1.time
    · rw [scanCandidates, if_pos hbreak]
      constructor
      · intro h
        exact absurd h (List.not_mem_nil m)
      · rintro ⟨j, r2', hget, hdiff, -, -, -⟩
        cases j with
        | zero =>
          rw [List.get?_cons_zero] at hget
          obtain rfl := Option.some.inj hget
          omega
        | succ j' =>
          rw [List.get?_cons_succ] at hget
          have hmem := List.get?_mem hget
          have := hp.1 r2' hmem
          omega
    · rw [scanCandidates, if_neg hbreak]
      push_neg at hbreak
      by_cases hne : r1.plate ≠ r2.plate
      · rw [if_pos hne]
        constructor
        · intro h
          rcases List.mem_append.mp h with h | h
          · by_cases hth : t ≤ score r1.plate r2.plate
            · rw [if_pos hth] at h
              obtain rfl := List.mem_singleton.mp h
              exact ⟨0, r2, List.get?_cons_zero, hbreak, hne, hth, rfl⟩
            · rw [if_neg hth] at h
              exact absurd h (List.not_mem_nil m)
          · obtain ⟨j, r2', h1, h2, h3, h4, h5⟩ := (ih m).mp h
            exact ⟨j + 1, r2', by rw [List.get?_cons_succ]; exact h1, h2, h3, h4, h5⟩
        · rintro ⟨j, r2', hget, hdiff, hne', hth, rfl⟩
          cases j with
          | zero =>
            rw [List.get?_cons_zero] at hget
            obtain rfl := Option.some.inj hget
            refine List.mem_append.mpr (Or.inl ?_)
            rw [if_pos hth]
            exact List.mem_singleton.mpr rfl
          | succ j' =>
            rw [List.get?_cons_succ] at hget
            exact List.mem_append.mpr
              (Or.inr ((ih _).mpr ⟨j', r2', hget, hdiff, hne', hth, rfl⟩))
      · rw [if_neg hne]
        push_neg at hne
        constructor
        · intro h
          obtain ⟨j, r2', h1, h2, h3, h4, h5⟩ := (ih m).mp h
          exact ⟨j + 1, r2', by rw [List.get?_cons_succ]; exact h1, h2, h3, h4, h5⟩
        · rintro ⟨j, r2', hget, hdiff, hne', hth, rfl⟩
          cases j with
          | zero =>
            rw [List.get?_cons_zero] at hget
            obtain rfl := Option.some.inj hget
            exact absurd hne hne'
          | succ j' =>
            rw [List.get?_cons_succ] at hget
            exact (ih _).mpr ⟨j', r2', hget, hdiff, hne', hth, rfl⟩

/-- Full membership characterization of `find_license_plate_errors` on
time-sorted records: a match is emitted exactly for the pairs `(i, j)` with
`j` among the 4 records after `i`, inside the window, with differing plates
and similarity at or above the threshold. -/
lemma find_mem_iff (w : Int) (t : ℚ) :
    ∀ (records : List Detection), records.Pairwise (fun x y => x.time ≤ y.time) →
      ∀ m : Match,
        (m ∈ find_license_plate_errors w t records ↔
          ∃ i j r1 r2, records.get? i = some r1 ∧ records.get? j = some r2 ∧
            i < j ∧ j ≤ i + 4 ∧ r2.time - r1.time ≤ w ∧ r1.plate ≠ r2.plate ∧
            t ≤ score r1.plate r2.plate ∧ m = mkMatch r1 r2)
  | [], _, m => by
    simp [find_license_plate_errors]
  | r1 :: rest, hs, m => by
    rw [List.pairwise_cons] at hs
    have htake : (rest.take 4).Pairwise (fun x y => x.time ≤ y.time) :=
      hs.2.sublist (List.take_sublist 4 rest)
    have hscan := scanCandidates_mem_iff r1 w t (rest.take 4) htake
    have ih := find_mem_iff w t rest hs.2
    rw [find_license_plate_errors]
    constructor
    · intro h
      rcases List.mem_append.mp h with h | h
      · obtain ⟨j, r2, hget, hdiff, hne, hth, rfl⟩ := (hscan m).mp h
        obtain ⟨hj4, hget'⟩ := (get?_take_eq rest 4 j r2).mp hget
        refine ⟨0, j + 1, r1, r2, List.get?_cons_zero, ?_, by omega, by omega,
          hdiff, hne, hth, rfl⟩
        rw [List.get?_cons_succ]
        exact hget'
      · obtain ⟨i, j, r1', r2, h1, h2, h3, h4, h5, h6, h7, h8⟩ := (ih m).mp h
        exact ⟨i + 1, j + 1, r1', r2, by rw [List.get?_cons_succ]; exact h1,
          by rw [List.get?_cons_succ]; exact h2, by omega, by omega, h5, h6, h7, h8⟩
    · rintro ⟨i, j, r1', r2, h1, h2, hij, hj4, hdiff, hne, hth, rfl⟩
      cases i with
      | zero =>
        rw [List.get?_cons_zero] at h1
        obtain rfl := Option.some.inj h1
        cases j with
        | zero => omega
        | succ j' =>
          rw [List.get?_cons_succ] at h2
          refine List.mem_append.mpr (Or.inl ?_)
          exact (hscan _).mpr
            ⟨j', r2, (get?_take_eq rest 4 j' r2).mpr ⟨by omega, h2⟩, hdiff, hne, hth, rfl⟩
      | succ i' =>
        cases j with
        | zero => omega
        | succ j' =>
          rw [List.get?_cons_succ] at h1 h2
          refine List.mem_append.mpr (Or.inr ?_)
          exact (ih _).mpr ⟨i', j', r1', r2, h1, h2, by omega, by omega, hdiff, hne, hth, rfl⟩

/-- Every emitted match (sorted input or not) is built by `mkMatch` from a
pair of records with differing plates and similarity at or above the
threshold. -/
lemma scan_mem_shape (r1 : Detection) (w : Int) (t : ℚ) :
    ∀ (cs : List Detection) (m : Match), m ∈ scanCandidates r1 w t cs →
      ∃ r2, r1.plate ≠ r2.plate ∧ t ≤ score r1.plate r2.plate ∧ m = mkMatch r1 r2
  | [], m, h => absurd h (List.not_mem_nil m)
  | r2 :: rest, m, h => by
    rw [scanCandidates] at h
    by_cases hbreak : w < r2.time - r1.time
    · rw [if_pos hbreak] at h
      exact absurd h (List.not_mem_nil m)
    · rw [if_neg hbreak] at h
      by_cases hne : r1.plate ≠ r2.plate
      · rw [if_pos hne] at h
        rcases List.mem_append.mp h with h | h
        · by_cases hth : t ≤ score r1.plate r2.plate
          · rw [if_pos hth] at h
            obtain rfl := List.mem_singleton.mp h
            exact ⟨r2, hne, hth, rfl⟩
          · rw [if_neg hth] at h
            exact absurd h (List.not_mem_nil m)
        · exact scan_mem_shape r1 w t rest m h
      · rw [if_neg hne] at h
        exact scan_mem_shape r1 w t rest m h

/-- Shape of every emitted match of the whole scan, with no sortedness
assumption. -/
lemma find_mem_shape (w : Int) (t : ℚ) :
    ∀ (records : List Detection) (m : Match), m ∈ find_license_plate_errors w t records →
      ∃ r1 r2, r1.plate ≠ r2.plate ∧ t ≤ score r1.plate r2.plate ∧ m = mkMatch r1 r2
  | [], m, h => absurd h (List.not_mem_nil m)
  | r1 :: rest, m, h => by
    rw [find_license_plate_errors] at h
    rcases List.mem_append.mp h with h | h
    · obtain ⟨r2, h1, h2, h3⟩ := scan_mem_shape r1 w t (rest.take 4) m h
      exact ⟨r1, r2, h1, h2, h3⟩
    · exact find_mem_shape w t rest m h

/-! ### A concrete scenario, used by the witnesses

The spec's own scenario: records `[(t0, "1234567"), (t0+20s, "1234568")]`,
window 5 minutes, threshold 70; the pair scores `600 / 7 ≈ 85.7`. -/

set_option maxRecDepth 100000 in
/-- The sample pair's similarity, computed: 6 matched characters out of 7+7. -/
lemma sample_score_ge : (70 : ℚ) ≤ score "1234567".toList "1234568".toList := by
  have hM : totalMatched "1234567".toList "1234568".toList = 6 := by decide
  have hlen : "1234567".toList.length + "1234568".toList.length = 14 := by decide
  rw [score, hM, hlen]
  norm_num [calcRatioQ]

/-- The sample pair is matched by the scan. -/
lemma sample_mem :
    mkMatch ⟨1, 0, "1234567".toList⟩ ⟨2, 20, "1234568".toList⟩ ∈
      find_license_plate_errors 300 70
        [⟨1, 0, "1234567".toList⟩, ⟨2, 20, "1234568".toList⟩] :=
  (find_mem_iff 300 70
      [⟨1, 0, "1234567".toList⟩, ⟨2, 20, "1234568".toList⟩] (by decide) _).mpr
    ⟨0, 1, ⟨1, 0, "1234567".toList⟩, ⟨2, 20, "1234568".toList⟩, rfl, rfl,
      by omega, by omega, by decide, by decide, sample_score_ge, rfl⟩

/-! ### Claims -/

/-- C1: on records sorted ascending by timestamp, `find_license_plate_errors`
emits a match for an ordered pair `(i, j)` if and only if `j` is among the 4
records immediately following `i`, the timestamps differ by at most the
window, the plates differ, and the similarity is at least the threshold
(inclusive). -/
theorem matcher_emits_iff (w : Int) (t : ℚ) (records : List Detection)
    (hs : records.Pairwise (fun x y => x.time ≤ y.time)) (m : Match) :
    m ∈ find_license_plate_errors w t records ↔
      ∃ i j r1 r2, records.get? i = some r1 ∧ records.get? j = some r2 ∧
        i < j ∧ j ≤ i + 4 ∧ r2.time - r1.time ≤ w ∧ r1.plate ≠ r2.plate ∧
        t ≤ score r1.plate r2.plate ∧ m = mkMatch r1 r2 :=
  find_mem_iff w t records hs m

/-- Witness for C1 at the spec's own scenario: two records 20 seconds apart
with plates differing in the last character, window 5 minutes, threshold
70. -/
theorem matcher_emits_iff_witness :
    mkMatch ⟨1, 0, "1234567".toList⟩ ⟨2, 20, "1234568".toList⟩ ∈
      find_license_plate_errors 300 70
        [⟨1, 0, "1234567".toList⟩, ⟨2, 20, "1234568".toList⟩] :=
  (matcher_emits_iff 300 70
      [⟨1, 0, "1234567".toList⟩, ⟨2, 20, "1234568".toList⟩] (by decide) _).mpr
    ⟨0, 1, ⟨1, 0, "1234567".toList⟩, ⟨2, 20, "1234568".toList⟩, rfl, rfl,
      by omega, by omega, by decide, by decide, sample_score_ge, rfl⟩

/-- C2: on sorted records, every emitted match satisfies the three Match
invariants: non-decreasing timestamps, differing plates, and a time gap
within the window. -/
theorem matcher_invariants (w : Int) (t : ℚ) (records : List Detection)
    (hs : records.Pairwise (fun x y => x.time ≤ y.time)) (m : Match)
    (hm : m ∈ find_license_plate_errors w t records) :
    m.time1 ≤ m.time2 ∧ m.plate1 ≠ m.plate2 ∧ m.time2 - m.time1 ≤ w := by
  obtain ⟨i, j, r1, r2, h1, h2, hij, hj4, hdiff, hne, hth, rfl⟩ :=
    (find_mem_iff w t records hs m).mp hm
  exact ⟨sorted_get?_le hs h1 h2 hij, hne, hdiff⟩

/-- Witness for C2 on the two-record scenario. -/
theorem matcher_invariants_witness :
    (mkMatch ⟨1, 0, "1234567".toList⟩ ⟨2, 20, "1234568".toList⟩).time1 ≤
        (mkMatch ⟨1, 0, "1234567".toList⟩ ⟨2, 20, "1234568".toList⟩).time2 ∧
      (mkMatch ⟨1, 0, "1234567".toList⟩ ⟨2, 20, "1234568".toList⟩).plate1 ≠
        (mkMatch ⟨1, 0, "1234567".toList⟩ ⟨2, 20, "1234568".toList⟩).plate2 ∧
      (mkMatch ⟨1, 0, "1234567".toList⟩ ⟨2, 20, "1234568".toList⟩).time2 -
          (mkMatch ⟨1, 0, "1234567".toList⟩ ⟨2, 20, "1234568".toList⟩).time1 ≤ 300 :=
  matcher_invariants 300 70
    [⟨1, 0, "1234567".toList⟩, ⟨2, 20, "1234568".toList⟩] (by decide) _ sample_mem

/-- C3: the similarity score always lies in `[0, 100]`, and a nonempty string
scored against itself gets exactly 100. -/
theorem score_in_range_and_reflexive (a b : Plate) :
    0 ≤ score a b ∧ score a b ≤ 100 ∧ (a ≠ [] → score a a = 100) :=
  ⟨score_nonneg a b, score_le_hundred a b, fun ha => score_self ha⟩

/-- Witness for C3: reflexivity at a concrete nonempty plate. -/
theorem score_in_range_witness : score ('A' :: []) ('A' :: []) = 100 :=
  (score_in_range_and_reflexive ('A' :: []) ('A' :: [])).2.2 (by decide)

/-- C4: the resolver classifies purely by plate length comparison:
`missing_chars` when the first plate is longer, `added_chars` when it is
shorter, `char_swap` on equal lengths. -/
theorem resolve_classifies_by_length (e : Match) :
    (e.plate1.length > e.plate2.length →
      (resolveCorrection e).correction_type = "missing_chars") ∧
    (e.plate1.length < e.plate2.length →
      (resolveCorrection e).correction_type = "added_chars") ∧
    (e.plate1.length = e.plate2.length →
      (resolveCorrection e).correction_type = "char_swap") := by
  refine ⟨fun h => ?_, fun h => ?_, fun h => ?_⟩
  · simp [resolveCorrection, h]
  · have h1 : ¬ e.plate1.length > e.plate2.length := by omega
    simp [resolveCorrection, h1, h]
  · have h1 : ¬ e.plate1.length > e.plate2.length := by omega
    have h2 : ¬ e.plate1.length < e.plate2.length := by omega
    simp [resolveCorrection, h1, h2]

/-- Witness for C4: a longer first plate is classified `missing_chars`. -/
theorem resolve_classifies_by_length_witness :
    (resolveCorrection ⟨1, 2, 0, 20, "AB12345".toList, "B12345".toList, 92⟩).correction_type =
      "missing_chars" :=
  (resolve_classifies_by_length ⟨1, 2, 0, 20, "AB12345".toList, "B12345".toList, 92⟩).1
    (by decide)

/-- C5: the resolver keeps the plate that is not shorter, ties going to the
first plate, so the corrected plate is never shorter than the shorter of the
two. -/
theorem resolve_picks_not_shorter (e : Match) :
    (e.plate2.length ≤ e.plate1.length →
      (resolveCorrection e).corrected_plate = e.plate1) ∧
    (e.plate1.length < e.plate2.length →
      (resolveCorrection e).corrected_plate = e.plate2) ∧
    min e.plate1.length e.plate2.length ≤ (resolveCorrection e).corrected_plate.length := by
  refine ⟨fun h => ?_, fun h => ?_, ?_⟩
  · simp [resolveCorrection, h]
  · have h1 : ¬ e.plate1.length ≥ e.plate2.length := by omega
    simp [resolveCorrection, h1]
  · by_cases h : e.plate1.length ≥ e.plate2.length
    · simp only [resolveCorrection, ge_iff_le, if_pos h]
      omega
    · simp only [resolveCorrection, ge_iff_le, if_neg h]
      omega

/-- Witness for C5: an exact tie keeps the first plate. -/
theorem resolve_picks_not_shorter_witness :
    (resolveCorrection ⟨1, 2, 0, 20, "1234567".toList, "1234568".toList, 85⟩).corrected_plate =
      "1234567".toList :=
  (resolve_picks_not_shorter ⟨1, 2, 0, 20, "1234567".toList, "1234568".toList, 85⟩).1
    (by decide)

/-- C6: for every emitted match, the correction's confidence equals the
similarity truncated toward zero, hence an integer in `[0, 100]`. -/
theorem resolve_confidence_truncation (w : Int) (t : ℚ) (records : List Detection)
    (m : Match) (hm : m ∈ find_license_plate_errors w t records) :
    (resolveCorrection m).confidence_score = ⌊m.similarity⌋ ∧
    0 ≤ (resolveCorrection m).confidence_score ∧
    (resolveCorrection m).confidence_score ≤ 100 := by
  obtain ⟨r1, r2, hne, hth, rfl⟩ := find_mem_shape w t records m hm
  have hsim0 : (0 : ℚ) ≤ (mkMatch r1 r2).similarity := score_nonneg r1.plate r2.plate
  have hsim100 : (mkMatch r1 r2).similarity ≤ 100 := score_le_hundred r1.plate r2.plate
  have hconf : (resolveCorrection (mkMatch r1 r2)).confidence_score =
      ⌊(mkMatch r1 r2).similarity⌋ := by
    show pyInt (mkMatch r1 r2).similarity = ⌊(mkMatch r1 r2).similarity⌋
    rw [pyInt, if_pos hsim0]
  refine ⟨hconf, ?_, ?_⟩
  · rw [hconf]
    exact Int.floor_nonneg.mpr hsim0
  · rw [hconf]
    calc ⌊(mkMatch r1 r2).similarity⌋ ≤ ⌊(100 : ℚ)⌋ := Int.floor_le_floor hsim100
      _ = 100 := by norm_num

/-- Witness for C6 on the two-record scenario (similarity 600/7, confidence
85). -/
theorem resolve_confidence_truncation_witness :
    (resolveCorrection (mkMatch ⟨1, 0, "1234567".toList⟩ ⟨2, 20, "1234568".toList⟩)).confidence_score =
        ⌊(mkMatch ⟨1, 0, "1234567".toList⟩ ⟨2, 20, "1234568".toList⟩).similarity⌋ ∧
      0 ≤ (resolveCorrection (mkMatch ⟨1, 0, "1234567".toList⟩ ⟨2, 20, "1234568".toList⟩)).confidence_score ∧
      (resolveCorrection (mkMatch ⟨1, 0, "1234567".toList⟩ ⟨2, 20, "1234568".toList⟩)).confidence_score ≤ 100 :=
  resolve_confidence_truncation 300 70
    [⟨1, 0, "1234567".toList⟩, ⟨2, 20, "1234568".toList⟩] _ sample_mem

/-- C7: the sink fully replaces the store with the corrections derived from
the error list, so a second run with the same list leaves the same state. -/
theorem sink_replace_idempotent (errors : List Match) (store : List Correction) :
    update_license_plates_with_scores errors store = errors.map resolveCorrection ∧
    update_license_plates_with_scores errors (update_license_plates_with_scores errors store) =
      update_license_plates_with_scores errors store :=
  ⟨rfl, rfl⟩

/-- C8: an empty detection list produces zero matches, zero corrections, and
leaves the corrections store untouched (the sink is not called). -/
theorem empty_input_noop (w : Int) (t : ℚ) (store : List Correction) :
    find_license_plate_errors w t [] = [] ∧
    (find_license_plate_errors w t []).map resolveCorrection = [] ∧
    mainPipeline [] w t store = store :=
  ⟨rfl, rfl, rfl⟩

/-- C9: two empty strings score 100 (the ratio is defined as 1.0 when the
combined length is zero). -/
theorem score_empty_empty : score [] [] = 100 := by
  have h : score ([] : Plate) ([] : Plate) = calcRatioQ 0 0 * 100 := rfl
  rw [h]
  norm_num [calcRatioQ]

/-- C10: the resolver's correction type is always one of the three
length-based values; `unknown` is never produced. -/
theorem correction_type_exhaustive (e : Match) :
    ((resolveCorrection e).correction_type = "missing_chars" ∨
      (resolveCorrection e).correction_type = "added_chars" ∨
      (resolveCorrection e).correction_type = "char_swap") ∧
    (resolveCorrection e).correction_type ≠ "unknown" := by
  have hct : (resolveCorrection e).correction_type = "missing_chars" ∨
      (resolveCorrection e).correction_type = "added_chars" ∨
      (resolveCorrection e).correction_type = "char_swap" := by
    by_cases h1 : e.plate1.length > e.plate2.length
    · left
      simp [resolveCorrection, h1]
    · by_cases h2 : e.plate1.length < e.plate2.length
      · right; left
        simp [resolveCorrection, h1, h2]
      · right; right
        simp [resolveCorrection, h1, h2]
  refine ⟨hct, ?_⟩
  rcases hct with h | h | h <;> rw [h] <;> decide

end CarPlates
